import Mathlib

/-!
Verification of the spikebench spike-train preparation core against its
natural-language specification.

The Python source is shallowly embedded: floats are modelled as rationals
(`ℚ`), numpy arrays as lists, and raised exceptions as `Except` errors.
Python integer floor division `//` is `Int.fdiv`.
-/

/-- Python exceptions that the embedded code can raise.  The source never
defines custom exception classes; these are the builtin exceptions its
operations can produce. -/
inductive PyErr where
  | valueError
  | indexError
  | zeroDivisionError
deriving DecidableEq

/-- `np.roll(a, shift)`: cyclically shift the array so that output index `i`
holds `a[(i - shift) mod n]`; the empty array rolls to itself. -/
def np_roll (a : List ℚ) (shift : ℤ) : List ℚ :=
  if a.length = 0 then a
  else
    let k := ((-shift).emod (a.length : ℤ)).toNat
    a.drop k ++ a.take k

/-- Python slice `a[:stop]` on a list: a negative `stop` counts from the end,
and the result is clamped to the available elements. -/
def pySliceTo (a : List ℚ) (stop : ℤ) : List ℚ :=
  if 0 ≤ stop then a.take stop.toNat
  else a.take ((a.length : ℤ) + stop).toNat

/-- The `split_chunks` array built inside `rolling_window`:
`[np.roll(a, -step * index)[:window] for index in range(n_chunks)]` with
`n_chunks = (a.shape[0] - window) // step + 1` (`Int.toNat` makes the
empty range for a non-positive count, as Python `range` does). -/
def splitChunks (a : List ℚ) (window step : ℤ) : List (List ℚ) :=
  (List.range (((a.length : ℤ) - window).fdiv step + 1).toNat).map
    (fun index : ℕ => pySliceTo (np_roll a (-(step * (index : ℤ)))) window)

/-- `TrainNormalizeTransform.rolling_window` (train_transformers.py:40-47):
the chunk stack is returned only when `split_chunks.any()` — i.e. only when
some chunk value is nonzero — and the function otherwise falls through,
returning `None`.  `step = 0` raises `ZeroDivisionError` at the `//`
division. -/
def rolling_window (a : List ℚ) (window step : ℤ) :
    Except PyErr (Option (List (List ℚ))) :=
  if step = 0 then .error .zeroDivisionError
  else if (splitChunks a window step).any
      (fun row => row.any (fun x => decide (x ≠ 0))) then
    .ok (some (splitChunks a window step))
  else
    .ok none

/-- The windows the specification promises: window `i` is
`series[s*i : s*i + w]`, and there are `max 0 ((N - w) / s + 1)` of them
(`Int.toNat` realises the `max 0`). -/
def expectedWindows (a : List ℚ) (w s : ℤ) : List (List ℚ) :=
  (List.range (((a.length : ℤ) - w).fdiv s + 1).toNat).map
    (fun i => (a.drop (s.toNat * i)).take w.toNat)

example : expectedWindows [1, 2, 3, 4, 5, 6, 7] 3 2 =
    [[1, 2, 3], [3, 4, 5], [5, 6, 7]] := by decide

example : rolling_window [1, 2, 3, 4, 5, 6, 7] 3 2 =
    .ok (some [[1, 2, 3], [3, 4, 5], [5, 6, 7]]) := by rfl

example : rolling_window [1, 2, 3, 4, 5, 6, 7] 3 5 = .ok (some [[1, 2, 3]]) := by
  rfl

example : rolling_window [0] 1 1 = .ok none := by rfl

lemma chunk_fits (N : ℕ) (w s : ℤ) (hw : 0 < w) (hs : 0 < s) (i : ℕ)
    (hi : i < (((N : ℤ) - w).fdiv s + 1).toNat) :
    s.toNat * i + w.toNat ≤ N := by
  rw [Int.fdiv_eq_ediv _ hs.le] at hi
  have h1 := Int.ediv_add_emod ((N : ℤ) - w) s
  have h2 := Int.emod_nonneg ((N : ℤ) - w) (ne_of_gt hs)
  have h3 : (i : ℤ) ≤ ((N : ℤ) - w) / s := by omega
  have h4 : s * (i : ℤ) ≤ s * (((N : ℤ) - w) / s) :=
    mul_le_mul_of_nonneg_left h3 hs.le
  have h5 : ((s.toNat * i + w.toNat : ℕ) : ℤ) = s * (i : ℤ) + w := by
    push_cast [Int.toNat_of_nonneg hs.le, Int.toNat_of_nonneg hw.le]
    ring
  omega

lemma roll_slice (a : List ℚ) (w : ℤ) (k : ℕ) (hw : 0 < w)
    (hk : k + w.toNat ≤ a.length) :
    pySliceTo (np_roll a (-(k : ℤ))) w = (a.drop k).take w.toNat := by
  have hwn : 0 < w.toNat := by omega
  have hkN : k < a.length := by omega
  have hNne : a.length ≠ 0 := by omega
  have hroll : np_roll a (-(k : ℤ)) = a.drop k ++ a.take k := by
    unfold np_roll
    rw [if_neg hNne]
    have hmod : (-(-(k : ℤ))).emod (a.length : ℤ) = (k : ℤ) := by
      rw [neg_neg]
      exact Int.emod_eq_of_lt (by positivity) (by exact_mod_cast hkN)
    rw [hmod, Int.toNat_natCast]
  rw [hroll]
  unfold pySliceTo
  rw [if_pos hw.le, List.take_append_eq_append_take]
  have hlen : w.toNat ≤ (a.drop k).length := by
    rw [List.length_drop]; omega
  rw [Nat.sub_eq_zero_of_le hlen, List.take_zero, List.append_nil]

lemma rolling_window_chunks (a : List ℚ) (w s : ℤ) (hw : 0 < w) (hs : 0 < s) :
    splitChunks a w s = expectedWindows a w s := by
  unfold splitChunks expectedWindows
  apply List.map_congr_left
  intro i hi
  rw [List.mem_range] at hi
  have hfit := chunk_fits a.length w s hw hs i hi
  have hcast : -(s * (i : ℤ)) = -((s.toNat * i : ℕ) : ℤ) := by
    push_cast [Int.toNat_of_nonneg hs.le]
    ring
  rw [hcast]
  exact roll_slice a w (s.toNat * i) hw (by omega)

/-- C1 (amended): for positive `window` and `step`, `rolling_window` computes
exactly the `max 0 ((N - w) / s + 1)` spec windows, window `i` being
`series[s*i : s*i+w]` of length `w` — but it returns them only when some
windowed value is nonzero, returning `None` (zero windows) both when the
window count is `≤ 0` and when every windowed value equals zero. -/
theorem rolling_window_correct (a : List ℚ) (w s : ℤ) (hw : 0 < w) (hs : 0 < s) :
    rolling_window a w s =
      .ok (if (expectedWindows a w s).any (fun win => win.any (fun x => decide (x ≠ 0)))
           then some (expectedWindows a w s) else none)
    ∧ (expectedWindows a w s).length = (((a.length : ℤ) - w).fdiv s + 1).toNat
    ∧ ∀ win ∈ expectedWindows a w s, win.length = w.toNat := by
  refine ⟨?_, ?_, ?_⟩
  · unfold rolling_window
    rw [if_neg (ne_of_gt hs), rolling_window_chunks a w s hw hs]
    split
    · rfl
    · rfl
  · unfold expectedWindows
    rw [List.length_map, List.length_range]
  · intro win hwin
    unfold expectedWindows at hwin
    rw [List.mem_map] at hwin
    obtain ⟨i, hi, rfl⟩ := hwin
    rw [List.mem_range] at hi
    have hfit := chunk_fits a.length w s hw hs i hi
    rw [List.length_take, List.length_drop]
    omega

/-- C1 witness: the specification scenario `[1..7]`, `window=3`, `step=2`. -/
theorem rolling_window_correct_witness :
    rolling_window [1, 2, 3, 4, 5, 6, 7] 3 2 =
      .ok (if (expectedWindows [1, 2, 3, 4, 5, 6, 7] 3 2).any
             (fun win => win.any (fun x => decide (x ≠ 0)))
           then some (expectedWindows [1, 2, 3, 4, 5, 6, 7] 3 2) else none)
    ∧ (expectedWindows [1, 2, 3, 4, 5, 6, 7] 3 2).length =
        ((((7 : ℕ) : ℤ) - 3).fdiv 2 + 1).toNat
    ∧ ∀ win ∈ expectedWindows [1, 2, 3, 4, 5, 6, 7] 3 2, win.length = (3 : ℤ).toNat :=
  rolling_window_correct [1, 2, 3, 4, 5, 6, 7] 3 2 (by decide) (by decide)

/-- C1 counterexample: the all-zero series `[0]` with `window=1`, `step=1` has
window count `1` and spec window `[0]`, yet the code returns `None`
(zero windows), because `split_chunks.any()` tests values, not emptiness. -/
theorem rolling_window_zero_series_counterexample :
    rolling_window [(0 : ℚ)] 1 1 = .ok none
    ∧ expectedWindows [(0 : ℚ)] 1 1 = [[0]] :=
  ⟨rfl, by decide⟩

/-- C6 (amended): the Segmenter performs no window/step validation and raises
no `InvalidWindowConfig`: for any `step ≠ 0` (including negative steps and
`window ≤ 0`) it returns without error, and `step = 0` raises
`ZeroDivisionError` at the floor division. -/
theorem rolling_window_no_validation (a : List ℚ) (w s : ℤ) :
    (s ≠ 0 → ∃ r, rolling_window a w s = .ok r)
    ∧ rolling_window a w 0 = .error .zeroDivisionError := by
  constructor
  · intro hs
    unfold rolling_window
    rw [if_neg hs]
    split
    · exact ⟨_, rfl⟩
    · exact ⟨_, rfl⟩
  · unfold rolling_window
    rw [if_pos rfl]

/-- C6 witness: a concrete run without error at `step = 1` and the
`ZeroDivisionError` at `step = 0`. -/
theorem rolling_window_no_validation_witness :
    (∃ r, rolling_window [(1 : ℚ)] 1 1 = .ok r)
    ∧ rolling_window [(1 : ℚ)] 1 0 = .error .zeroDivisionError :=
  ⟨(rolling_window_no_validation [(1 : ℚ)] 1 1).1 (by decide),
   (rolling_window_no_validation [(1 : ℚ)] 1 0).2⟩

/-- C6 counterexample: `window = 0 ≤ 0` with a nonempty series raises nothing
at all — the call returns `.ok none` instead of failing. -/
theorem rolling_window_window_zero_counterexample :
    ¬ ∃ e, rolling_window [(1 : ℚ), 2] 0 1 = .error e := by
  intro h
  obtain ⟨e, he⟩ := h
  have hok : rolling_window [(1 : ℚ), 2] 0 1 = .ok none := rfl
  rw [hok] at he
  exact Except.noConfusion he


/-- Split a character list at every character satisfying `p`, keeping the
(possibly empty) tokens between occurrences — the behaviour of Python
`str.split` with an explicit delimiter. -/
def splitPred (p : Char → Bool) : List Char → List (List Char)
  | [] => [[]]
  | c :: rest =>
    if p c then [] :: splitPred p rest
    else
      match splitPred p rest with
      | [] => [[c]]
      | t :: ts => (c :: t) :: ts

/-- Python `str.split(delimiter)` on the character level.  `None` splits on
whitespace runs and drops empty tokens; an explicit delimiter splits on each
occurrence, keeping empty tokens.  Every call in the repository passes either
`None` or a single-character delimiter (`","`), so the delimiter is modelled
as an optional character. -/
def pySplit (s : String) (delimiter : Option Char) : List (List Char) :=
  match delimiter with
  | none => (splitPred (fun c => c.isWhitespace) s.data).filter (fun t => !t.isEmpty)
  | some d => splitPred (fun c => c = d) s.data

/-- Strip leading and trailing whitespace, as Python `float` does before
parsing. -/
def trimChars (cs : List Char) : List Char :=
  ((cs.dropWhile (fun c => c.isWhitespace)).reverse.dropWhile
      (fun c => c.isWhitespace)).reverse

/-- Split at the first character satisfying `p`: the part before it and,
when it occurs, the part after it. -/
def splitOnceChar (p : Char → Bool) : List Char → List Char × Option (List Char)
  | [] => ([], none)
  | c :: rest =>
    if p c then ([], some rest)
    else
      match splitOnceChar p rest with
      | (a, b) => (c :: a, b)

def natOfDigits (cs : List Char) : ℕ :=
  cs.foldl (fun acc c => acc * 10 + (c.toNat - 48)) 0

def parseUnsignedMantissa (cs : List Char) : Option ℚ :=
  match splitOnceChar (fun c => c = '.') cs with
  | (ip, none) =>
    if !ip.isEmpty && ip.all Char.isDigit then some (natOfDigits ip) else none
  | (ip, some fp) =>
    if !(ip.isEmpty && fp.isEmpty) && ip.all Char.isDigit && fp.all Char.isDigit then
      some ((natOfDigits ip : ℚ) + (natOfDigits fp : ℚ) / (10 ^ fp.length))
    else none

def parseExpPart (cs : List Char) : Option ℤ :=
  match cs with
  | '+' :: ds =>
    if !ds.isEmpty && ds.all Char.isDigit then some (natOfDigits ds) else none
  | '-' :: ds =>
    if !ds.isEmpty && ds.all Char.isDigit then some (-(natOfDigits ds : ℤ)) else none
  | ds =>
    if !ds.isEmpty && ds.all Char.isDigit then some (natOfDigits ds) else none

/-- Python `float(token)` on finite decimal literals, as a rational: optional
surrounding whitespace, optional sign, digits with an optional decimal point
(digits required on at least one side), optional exponent.  The non-finite
literals (`inf`, `nan`) and underscore separators have no rational
counterpart and are outside the claims. -/
def pyFloat (cs : List Char) : Option ℚ :=
  match trimChars cs with
  | '+' :: r => pyFloatUnsigned 1 r
  | '-' :: r => pyFloatUnsigned (-1) r
  | r => pyFloatUnsigned 1 r
where
  pyFloatUnsigned (sign : ℚ) (cs : List Char) : Option ℚ :=
    match splitOnceChar (fun c => c = 'e' || c = 'E') cs with
    | (mant, none) => (parseUnsignedMantissa mant).map (fun m => sign * m)
    | (mant, some ep) =>
      match parseUnsignedMantissa mant, parseExpPart ep with
      | some m, some e => some (sign * m * (10 : ℚ) ^ e)
      | _, _ => none

example : pyFloat "12.25".data = some (49 / 4) := by with_unfolding_all rfl
example : pyFloat " -3 ".data = some (-3) := by with_unfolding_all rfl
example : pyFloat "2e2".data = some 200 := by with_unfolding_all rfl
example : pyFloat ".5e-1".data = some (1 / 20) := by with_unfolding_all rfl
example : pyFloat "1 2 3".data = none := by decide
example : pyFloat "".data = none := by decide
example : pyFloat "abc".data = none := by decide

/-- The list comprehension `[float(value) for value in ...]`: evaluated left
to right, the first malformed token raising `ValueError`. -/
def parseTokens : List (List Char) → Except PyErr (List ℚ)
  | [] => .ok []
  | t :: rest =>
    match pyFloat t with
    | none => .error .valueError
    | some q =>
      match parseTokens rest with
      | .error e => .error e
      | .ok qs => .ok (q :: qs)

/-- `TrainNormalizeTransform.string_to_float_series` (train_transformers.py:36-38):
`np.array([float(value) for value in string_series.split(delimiter)])`. -/
def string_to_float_series (string_series : String) (delimiter : Option Char) :
    Except PyErr (List ℚ) :=
  parseTokens (pySplit string_series delimiter)

example : string_to_float_series "1,2.5,3" (some ',') = .ok [1, 5/2, 3] := by
  with_unfolding_all rfl
example : string_to_float_series "1 2 3" (some ',') = .error .valueError := by rfl
example : string_to_float_series "1 2  3" none = .ok [1, 2, 3] := by
  with_unfolding_all rfl
example : string_to_float_series "" none = .ok [] := by rfl
example : string_to_float_series "" (some ',') = .error .valueError := by rfl

lemma parseTokens_all_ok (ts : List (List Char))
    (h : ∀ t ∈ ts, (pyFloat t).isSome) :
    parseTokens ts = .ok (ts.map (fun t => (pyFloat t).getD 0)) := by
  induction ts with
  | nil => rfl
  | cons t rest ih =>
    have ht : (pyFloat t).isSome := h t (List.mem_cons_self t rest)
    obtain ⟨q, hq⟩ := Option.isSome_iff_exists.mp ht
    have hrest := ih (fun x hx => h x (List.mem_cons_of_mem t hx))
    simp only [parseTokens, hq, hrest, List.map_cons, Option.getD_some]

lemma parseTokens_bad (ts : List (List Char))
    (h : ∃ t ∈ ts, pyFloat t = none) :
    parseTokens ts = .error .valueError := by
  induction ts with
  | nil => simp at h
  | cons t rest ih =>
    obtain ⟨x, hx, hbad⟩ := h
    rcases List.mem_cons.mp hx with rfl | hxr
    · simp only [parseTokens, hbad]
    · cases hq : pyFloat t with
      | none => simp only [parseTokens, hq]
      | some q => simp only [parseTokens, hq, ih ⟨x, hxr, hbad⟩]

/-- C7: the "isi" passthrough parse returns exactly the numeric value of every
token of the delimited input, in order and with no further transform, and
raises the parse error (Python `ValueError`, the spec name is `ParseError`)
precisely when some token is not numeric — so a mismatched delimiter, which
leaves non-numeric compound tokens, raises rather than returning malformed
data. -/
theorem string_to_float_series_spec (s : String) (d : Option Char) :
    ((∀ t ∈ pySplit s d, (pyFloat t).isSome) →
      string_to_float_series s d =
        .ok ((pySplit s d).map (fun t => (pyFloat t).getD 0)))
    ∧ ((∃ t ∈ pySplit s d, pyFloat t = none) →
      string_to_float_series s d = .error .valueError) :=
  ⟨fun h => parseTokens_all_ok _ h, fun h => parseTokens_bad _ h⟩

/-- C7 witness: `"1,2"` parses with its matching delimiter, and the
whitespace-delimited string `"1 2 3"` read with the mismatched delimiter `","`
raises rather than returning malformed data. -/
theorem string_to_float_series_spec_witness :
    string_to_float_series "1,2" (some ',') =
      .ok ((pySplit "1,2" (some ',')).map (fun t => (pyFloat t).getD 0))
    ∧ string_to_float_series "1 2 3" (some ',') = .error .valueError :=
  ⟨(string_to_float_series_spec "1,2" (some ',')).1 (by with_unfolding_all decide),
   (string_to_float_series_spec "1 2 3" (some ',')).2
     ⟨"1 2 3".data, by decide, by decide⟩⟩

/-- The accumulation loop of `TrainNormalizeTransform.transform`
(train_transformers.py:52-59): per series, parse with the delimiter, run the
segmenter, and when the chunk stack is not `None` vstack it onto the
accumulator and replicate the label of the series once per chunk.  The
accumulator starts as the 1-D zero seed row (`np.zeros(window)`, the
`Sum.inl` state) and becomes a 2-D stack (`Sum.inr`) at the first vstack;
`y[train_index]` out of range raises `IndexError`. -/
def transformLoop (w s : ℤ) (y : List ℚ) (d : Option Char) :
    List String → ℕ → (List ℚ ⊕ List (List ℚ)) → List ℚ →
    Except PyErr ((List ℚ ⊕ List (List ℚ)) × List ℚ)
  | [], _, acc, tgt => .ok (acc, tgt)
  | spike_train :: rest, i, acc, tgt =>
    match string_to_float_series spike_train d with
    | .error e => .error e
    | .ok arr =>
      match rolling_window arr w s with
      | .error e => .error e
      | .ok none => transformLoop w s y d rest (i + 1) acc tgt
      | .ok (some chunks) =>
        match y.get? i with
        | none => .error .indexError
        | some label =>
          transformLoop w s y d rest (i + 1)
            (.inr ((match acc with
                    | .inl row => [row]
                    | .inr m => m) ++ chunks))
            (tgt ++ List.replicate chunks.length label)

/-- The index array `np.random.choice(R, k)` draws: `k` independent uniform
indices below `R`, drawn with replacement.  The random stream is modelled by
an arbitrary function `rng`, reduced modulo `R`, so every possible draw is
some choice of `rng`. -/
def subsampleIdxs (rng : ℕ → ℕ) (k R : ℕ) : List ℕ :=
  (List.range k).map (fun j => rng j % R)

/-- The tail of `TrainNormalizeTransform.transform` after the seed row has
been dropped: the optional `n_samples` subsampling followed by the final
`np.vstack`.  `np.random.choice(R, k)` raises `ValueError` when `R = 0 < k`;
the final `np.vstack(normalized_trains)` raises `ValueError` on zero rows
(after subsampling, exactly when `k = 0`). -/
def transformFinish (n_samples : Option ℕ) (rng : ℕ → ℕ)
    (rows : List (List ℚ)) (tgt : List ℚ) :
    Except PyErr (List (List ℚ) × List ℚ) :=
  match n_samples with
  | none => if rows.length = 0 then .error .valueError else .ok (rows, tgt)
  | some k =>
    if rows.length = 0 ∧ 0 < k then .error .valueError
    else if k = 0 then .error .valueError
    else
      .ok ((subsampleIdxs rng k rows.length).map (fun idx => rows.getD idx []),
           (subsampleIdxs rng k rows.length).map (fun idx => tgt.getD idx 0))

/-- `TrainNormalizeTransform.transform` (train_transformers.py:49-68).
`np.zeros(window)` raises `ValueError` for a negative size.  After the loop,
`normalized_trains[1:, :]` drops the seed row but raises `IndexError`
("too many indices for array") when the accumulator is still the 1-D seed,
i.e. when no series yielded chunks. -/
def transform (w s : ℤ) (n_samples : Option ℕ) (rng : ℕ → ℕ) (X : List String)
    (y : List ℚ) (d : Option Char) : Except PyErr (List (List ℚ) × List ℚ) :=
  if w < 0 then .error .valueError
  else
    match transformLoop w s y d X 0 (.inl (List.replicate w.toNat 0)) [] with
    | .error e => .error e
    | .ok (.inl _, _) => .error .indexError
    | .ok (.inr m, tgt) => transformFinish n_samples rng (m.drop 1) tgt

example : transform 1 1 none (fun _ => 0) ["1 2", "3"] [5, 6] none =
    .ok ([[1], [2], [3]], [5, 5, 6]) := by with_unfolding_all rfl

/-- C2 counterexample: one available row (`R = 1`) and `n_samples = 2 > R`:
the transform succeeds with two rows — necessarily duplicates, so the draw is
with replacement — instead of failing. -/
theorem transform_subsample_counterexample :
    transform 1 1 (some 2) (fun _ => 0) ["1"] [5] none =
      .ok ([[1], [1]], [5, 5]) := by
  with_unfolding_all rfl

/-- C2 (amended): subsampling draws `n_samples = k` indices independently and
uniformly with replacement.  Whenever the dataset has `R ≥ 1` available rows
and `k ≥ 1`, the transform succeeds with exactly `k` rows — also when
`k > R`, duplicating rows — and each returned row keeps the label of its
source row (row `j` and label `j` come from the same index `idxs[j] < R`).
Python raises only when `R = 0` (`ValueError` from `np.random.choice`), not
the `InsufficientSamplesError` of the spec. -/
theorem transform_subsample (w s : ℤ) (k : ℕ) (rng rng0 : ℕ → ℕ)
    (X : List String) (y : List ℚ) (d : Option Char)
    (W : List (List ℚ)) (L : List ℚ)
    (hok : transform w s none rng0 X y d = .ok (W, L)) (hk : 0 < k) :
    transform w s (some k) rng X y d =
      .ok ((subsampleIdxs rng k W.length).map (fun idx => W.getD idx []),
           (subsampleIdxs rng k W.length).map (fun idx => L.getD idx 0))
    ∧ (subsampleIdxs rng k W.length).length = k
    ∧ ∀ idx ∈ subsampleIdxs rng k W.length, idx < W.length := by
  have hinv : ¬ w < 0 ∧ ∃ m tgt,
      transformLoop w s y d X 0 (.inl (List.replicate w.toNat 0)) [] =
        .ok (.inr m, tgt)
      ∧ W = m.drop 1 ∧ L = tgt ∧ W.length ≠ 0 := by
    unfold transform at hok
    split at hok
    · exact absurd hok (by simp)
    · next hw =>
      refine ⟨hw, ?_⟩
      split at hok
      · simp at hok
      · simp at hok
      · next m tgt heq =>
        refine ⟨m, tgt, heq, ?_⟩
        simp only [transformFinish] at hok
        split at hok
        · simp at hok
        · next hne =>
          simp only [Except.ok.injEq, Prod.mk.injEq] at hok
          exact ⟨hok.1.symm, hok.2.symm, by rw [hok.1] at hne; exact hne⟩
  obtain ⟨hw, m, tgt, hloop, hWm, hLt, hne⟩ := hinv
  subst hWm; subst hLt
  unfold transform
  rw [if_neg hw, hloop]
  dsimp only [transformFinish]
  constructor
  · split_ifs with h1 h2
    · exact absurd h1.1 hne
    · omega
    · rfl
  refine ⟨by simp [subsampleIdxs], ?_⟩
  intro idx hidx
  simp only [subsampleIdxs, List.mem_map] at hidx
  obtain ⟨j, _, rfl⟩ := hidx
  exact Nat.mod_lt _ (by omega)

/-- C2 witness: two rows available, three requested with the identity random
stream: the transform returns rows `[1],[2],[1]` with labels `4,4,4`. -/
theorem transform_subsample_witness :
    transform 1 1 (some 3) (fun j => j) ["1 2"] [4] none =
      .ok ((subsampleIdxs (fun j => j) 3 ([[(1 : ℚ)], [2]]).length).map
             (fun idx => ([[(1 : ℚ)], [2]]).getD idx []),
           (subsampleIdxs (fun j => j) 3 ([[(1 : ℚ)], [2]]).length).map
             (fun idx => ([(4 : ℚ), 4]).getD idx 0))
    ∧ (subsampleIdxs (fun j => j) 3 ([[(1 : ℚ)], [2]]).length).length = 3
    ∧ ∀ idx ∈ subsampleIdxs (fun j => j) 3 ([[(1 : ℚ)], [2]]).length,
        idx < ([[(1 : ℚ)], [2]]).length :=
  transform_subsample 1 1 3 (fun j => j) (fun _ => 0) ["1 2"] [4] none
    [[1], [2]] [4, 4] (by with_unfolding_all rfl) (by decide)

lemma transformLoop_append_skip (w s : ℤ) (y : List ℚ) (lab : ℚ) (d : Option Char)
    (srs : String) (arr : List ℚ)
    (hparse : string_to_float_series srs d = .ok arr)
    (hroll : rolling_window arr w s = .ok none) :
    ∀ (X : List String) (i : ℕ) (acc : List ℚ ⊕ List (List ℚ)) (tgt : List ℚ),
      X.length + i ≤ y.length →
      transformLoop w s (y ++ [lab]) d (X ++ [srs]) i acc tgt =
      transformLoop w s y d X i acc tgt := by
  intro X
  induction X with
  | nil =>
    intro i acc tgt hlen
    simp only [List.nil_append, transformLoop, hparse, hroll]
  | cons x rest ih =>
    intro i acc tgt hlen
    have hi : i < y.length := by simp at hlen; omega
    have hrec : rest.length + (i + 1) ≤ y.length := by simp at hlen; omega
    cases hp : string_to_float_series x d with
    | error e => simp only [List.cons_append, transformLoop, hp]
    | ok arr2 =>
      cases hr : rolling_window arr2 w s with
      | error e => simp only [List.cons_append, transformLoop, hp, hr]
      | ok o =>
        cases o with
        | none =>
          simp only [List.cons_append, transformLoop, hp, hr]
          exact ih (i + 1) acc tgt hrec
        | some chunks =>
          simp only [List.cons_append, transformLoop, hp, hr, List.get?_append hi]
          cases hg : y.get? i with
          | none => rfl
          | some label => exact ih (i + 1) _ _ hrec

lemma transformLoop_all_skip (w s : ℤ) (y : List ℚ) (d : Option Char) :
    ∀ (X : List String) (i : ℕ) (acc : List ℚ ⊕ List (List ℚ)) (tgt : List ℚ),
      (∀ srs ∈ X, ∃ arr, string_to_float_series srs d = .ok arr ∧
          rolling_window arr w s = .ok none) →
      transformLoop w s y d X i acc tgt = .ok (acc, tgt) := by
  intro X
  induction X with
  | nil => intro i acc tgt _; rfl
  | cons x rest ih =>
    intro i acc tgt h
    obtain ⟨arr, hp, hr⟩ := h x (List.mem_cons_self x rest)
    simp only [transformLoop, hp, hr]
    exact ih (i + 1) acc tgt (fun srs hs => h srs (List.mem_cons_of_mem x hs))

/-- C5 (amended): a series whose segmentation yields zero windows is excluded
from the aggregate without any error — appending such a series (with any
label) to the input leaves the output identical — and when *no* series yields
any window the transform fails, but with `IndexError` (the 1-D seed array is
sliced as `[1:, :]`), not the `InsufficientSamplesError` of the spec. -/
theorem transform_empty_series (w s : ℤ) (ns : Option ℕ) (rng : ℕ → ℕ)
    (X : List String) (y : List ℚ) (d : Option Char) (srs : String) (lab : ℚ)
    (arr : List ℚ) (hw : 0 ≤ w) (hlen : X.length ≤ y.length)
    (hparse : string_to_float_series srs d = .ok arr)
    (hroll : rolling_window arr w s = .ok none) :
    transform w s ns rng (X ++ [srs]) (y ++ [lab]) d = transform w s ns rng X y d
    ∧ ((∀ srs2 ∈ X, ∃ arr2, string_to_float_series srs2 d = .ok arr2 ∧
          rolling_window arr2 w s = .ok none) →
        transform w s ns rng X y d = .error .indexError) := by
  constructor
  · unfold transform
    rw [transformLoop_append_skip w s y lab d srs arr hparse hroll X 0 _ _
      (by omega)]
  · intro hall
    unfold transform
    rw [if_neg (by omega), transformLoop_all_skip w s y d X 0 _ _ hall]

/-- C5 witness: a series too short for the window is skipped without error,
and with nothing but skipped series the transform raises `IndexError`. -/
theorem transform_empty_series_witness :
    transform 2 1 none (fun _ => 0) ["5"] [(1 : ℚ)] none =
      transform 2 1 none (fun _ => 0) [] [] none
    ∧ transform 2 1 none (fun _ => 0) [] [] none = .error .indexError := by
  have h := transform_empty_series 2 1 none (fun _ => 0) [] [] none "5" 1 [5]
    (by decide) (by decide) (by with_unfolding_all rfl) (by rfl)
  exact ⟨h.1, h.2 (by simp)⟩

/-- C5 counterexample: the single series `"1 2"` yields zero windows under
`window = 5`, so no series yields a window — and the transform raises
`IndexError`, not the `InsufficientSamplesError` the claim names. -/
theorem transform_no_windows_counterexample :
    transform 5 2 none (fun _ => 0) ["1 2"] [(3 : ℚ)] none =
      .error .indexError := by
  with_unfolding_all rfl

/-- Rows of the accumulator after the seed-row slice `[1:, :]`: nothing while
the accumulator is still the 1-D seed, otherwise the stacked rows minus the
seed. -/
def accRows : (List ℚ ⊕ List (List ℚ)) → List (List ℚ)
  | .inl _ => []
  | .inr m => m.drop 1

/-- Modelled from the spec: the accumulation loop of
`spikebench.transforms.TrainNormalizeTransform` — the module that
`load_datasets.py` imports is absent from `src/` (only the older `pyspikelib`
implementation is present).  Per spec §4.3 and §6 the Dataset Assembler also
propagates the group identifier of each series, replicated once per window in
lockstep with the label. -/
def transformGLoop {G : Type} (w s : ℤ) (y : List ℚ) (g : List G)
    (d : Option Char) :
    List String → ℕ → (List ℚ ⊕ List (List ℚ)) → List ℚ → List G →
    Except PyErr ((List ℚ ⊕ List (List ℚ)) × List ℚ × List G)
  | [], _, acc, tgt, gacc => .ok (acc, tgt, gacc)
  | spike_train :: rest, i, acc, tgt, gacc =>
    match string_to_float_series spike_train d with
    | .error e => .error e
    | .ok arr =>
      match rolling_window arr w s with
      | .error e => .error e
      | .ok none => transformGLoop w s y g d rest (i + 1) acc tgt gacc
      | .ok (some chunks) =>
        match y.get? i, g.get? i with
        | some label, some grp =>
          transformGLoop w s y g d rest (i + 1)
            (.inr ((match acc with
                    | .inl row => [row]
                    | .inr m => m) ++ chunks))
            (tgt ++ List.replicate chunks.length label)
            (gacc ++ List.replicate chunks.length grp)
        | _, _ => .error .indexError

/-- Modelled from the spec: the tail of the grouped transform — subsampling
keeps rows, labels, and groups index-aligned by applying the same index draw
to all three (spec §5: "label, group, and feature-row arrays must remain
index-aligned through every transform stage"). -/
def transformGFinish {G : Type} [Inhabited G] (n_samples : Option ℕ)
    (rng : ℕ → ℕ) (rows : List (List ℚ)) (tgt : List ℚ) (gacc : List G) :
    Except PyErr (List (List ℚ) × List ℚ × List G) :=
  match n_samples with
  | none => if rows.length = 0 then .error .valueError else .ok (rows, tgt, gacc)
  | some k =>
    if rows.length = 0 ∧ 0 < k then .error .valueError
    else if k = 0 then .error .valueError
    else
      .ok ((subsampleIdxs rng k rows.length).map (fun idx => rows.getD idx []),
           (subsampleIdxs rng k rows.length).map (fun idx => tgt.getD idx 0),
           (subsampleIdxs rng k rows.length).map (fun idx => gacc.getD idx default))

/-- Modelled from the spec: `spikebench.transforms.TrainNormalizeTransform`
used by `load_datasets.py` (absent from `src/`), which per spec §4.3 returns
window, label, and group arrays.  The segmentation and subsampling follow the
`pyspikelib` source (`transform` above) with the group vector carried in
lockstep. -/
def transformWithGroups {G : Type} [Inhabited G] (w s : ℤ) (ns : Option ℕ)
    (rng : ℕ → ℕ) (X : List String) (y : List ℚ) (g : List G)
    (d : Option Char) : Except PyErr (List (List ℚ) × List ℚ × List G) :=
  if w < 0 then .error .valueError
  else
    match transformGLoop w s y g d X 0 (.inl (List.replicate w.toNat 0)) [] [] with
    | .error e => .error e
    | .ok (.inl _, _, _) => .error .indexError
    | .ok (.inr m, tgt, gacc) => transformGFinish ns rng (m.drop 1) tgt gacc

example : transformWithGroups 1 1 none (fun _ => 0) ["1 2", "3"] [5, 6]
    [(8 : ℕ), 9] none = .ok ([[1], [2], [3]], [5, 5, 6], [8, 8, 9]) := by
  with_unfolding_all rfl

lemma getD_mem {α : Type} (l : List α) (i : ℕ) (dflt : α) (h : i < l.length) :
    l.getD i dflt ∈ l := by
  rw [List.getD_eq_get?, List.get?_eq_getElem?, List.getElem?_eq_getElem h]
  exact List.getElem_mem h

lemma transformGLoop_inv {G : Type} (w s : ℤ) (y : List ℚ) (g : List G)
    (d : Option Char) :
    ∀ (X : List String) (i : ℕ) (acc : List ℚ ⊕ List (List ℚ)) (tgt : List ℚ)
      (gacc : List G) (res : (List ℚ ⊕ List (List ℚ)) × List ℚ × List G),
      (∀ m0, acc = Sum.inr m0 → m0 ≠ []) →
      transformGLoop w s y g d X i acc tgt gacc = .ok res →
      ∃ drows dtgt dg,
        accRows res.1 = accRows acc ++ drows
        ∧ res.2.1 = tgt ++ dtgt
        ∧ res.2.2 = gacc ++ dg
        ∧ drows.length = dtgt.length ∧ dtgt.length = dg.length
        ∧ (∀ row ∈ drows, ∃ srs ∈ X, ∃ arr chunks,
            string_to_float_series srs d = .ok arr
            ∧ rolling_window arr w s = .ok (some chunks) ∧ row ∈ chunks)
        ∧ (∀ gv ∈ dg, gv ∈ g) := by
  intro X
  induction X with
  | nil =>
    intro i acc tgt gacc res hacc hok
    simp only [transformGLoop, Except.ok.injEq] at hok
    subst hok
    exact ⟨[], [], [], by simp, by simp, by simp, rfl, rfl, by simp, by simp⟩
  | cons x rest ih =>
    intro i acc tgt gacc res hacc hok
    cases hp : string_to_float_series x d with
    | error e => simp [transformGLoop, hp] at hok
    | ok arr =>
      cases hr : rolling_window arr w s with
      | error e => simp [transformGLoop, hp, hr] at hok
      | ok o =>
        cases o with
        | none =>
          simp only [transformGLoop, hp, hr] at hok
          obtain ⟨drows, dtgt, dg, h1, h2, h3, h4, h5, h6, h7⟩ :=
            ih (i + 1) acc tgt gacc res hacc hok
          refine ⟨drows, dtgt, dg, h1, h2, h3, h4, h5, ?_, h7⟩
          intro row hrow
          obtain ⟨srs, hm, hrest⟩ := h6 row hrow
          exact ⟨srs, List.mem_cons_of_mem x hm, hrest⟩
        | some chunks =>
          cases hy : y.get? i with
          | none =>
            simp only [transformGLoop, hp, hr, hy] at hok
            exact Except.noConfusion hok
          | some label =>
            cases hgg : g.get? i with
            | none =>
              simp only [transformGLoop, hp, hr, hy, hgg] at hok
              exact Except.noConfusion hok
            | some grp =>
              simp only [transformGLoop, hp, hr, hy, hgg] at hok
              have hstep : ∃ base, accRows (Sum.inr (base ++ chunks)) =
                  accRows acc ++ chunks ∧
                  transformGLoop w s y g d rest (i + 1) (.inr (base ++ chunks))
                    (tgt ++ List.replicate chunks.length label)
                    (gacc ++ List.replicate chunks.length grp) = .ok res ∧
                  base ≠ [] := by
                cases acc with
                | inl row0 => exact ⟨[row0], by simp [accRows], hok, by simp⟩
                | inr m0 =>
                  refine ⟨m0, ?_, hok, hacc m0 rfl⟩
                  have hm0 : m0 ≠ [] := hacc m0 rfl
                  have h1le : 1 ≤ m0.length := by
                    cases m0 with
                    | nil => exact absurd rfl hm0
                    | cons a as => simp
                  simp only [accRows, List.drop_append_eq_append_drop,
                    Nat.sub_eq_zero_of_le h1le, List.drop_zero]
              obtain ⟨base, hbase, hok2, hbne⟩ := hstep
              obtain ⟨drows, dtgt, dg, h1, h2, h3, h4, h5, h6, h7⟩ :=
                ih (i + 1) (.inr (base ++ chunks))
                  (tgt ++ List.replicate chunks.length label)
                  (gacc ++ List.replicate chunks.length grp) res
                  (by intro m1 hm1; injection hm1 with hm1; subst hm1
                      simp [hbne]) hok2
              refine ⟨chunks ++ drows,
                List.replicate chunks.length label ++ dtgt,
                List.replicate chunks.length grp ++ dg,
                ?_, ?_, ?_, by simp [h4], by simp [h5], ?_, ?_⟩
              · rw [h1, hbase, List.append_assoc]
              · rw [h2, List.append_assoc]
              · rw [h3, List.append_assoc]
              · intro row hrow
                rcases List.mem_append.mp hrow with hc | hd
                · exact ⟨x, List.mem_cons_self x rest, arr, chunks, hp, hr, hc⟩
                · obtain ⟨srs, hm, hrest⟩ := h6 row hd
                  exact ⟨srs, List.mem_cons_of_mem x hm, hrest⟩
              · intro gv hgv
                rcases List.mem_append.mp hgv with hc | hd
                · rw [List.eq_of_mem_replicate hc]
                  exact List.get?_mem hgg
                · exact h7 gv hd

lemma transformWithGroups_parts {G : Type} [Inhabited G] (w s : ℤ)
    (ns : Option ℕ) (rng : ℕ → ℕ) (X : List String) (y : List ℚ) (g : List G)
    (d : Option Char) (W : List (List ℚ)) (L : List ℚ) (Gr : List G)
    (hok : transformWithGroups w s ns rng X y g d = .ok (W, L, Gr)) :
    W.length = L.length ∧ L.length = Gr.length
    ∧ (∀ row ∈ W, ∃ srs ∈ X, ∃ arr chunks,
        string_to_float_series srs d = .ok arr
        ∧ rolling_window arr w s = .ok (some chunks) ∧ row ∈ chunks)
    ∧ (∀ gv ∈ Gr, gv ∈ g) := by
  unfold transformWithGroups at hok
  split at hok
  · exact absurd hok (by simp)
  · split at hok
    · simp at hok
    · simp at hok
    · next m tgt gacc heq =>
      obtain ⟨drows, dtgt, dg, h1, h2, h3, h4, h5, h6, h7⟩ :=
        transformGLoop_inv w s y g d X 0 (.inl (List.replicate w.toNat 0)) [] []
          (.inr m, tgt, gacc) (fun m0 h => absurd h (by simp)) heq
      have hrows : m.drop 1 = drows := by simpa [accRows] using h1
      have htgt : tgt = dtgt := by simpa using h2
      have hgacc : gacc = dg := by simpa using h3
      have hlen1 : (m.drop 1).length = tgt.length := by rw [hrows, htgt]; exact h4
      have hlen2 : tgt.length = gacc.length := by rw [htgt, hgacc]; exact h5
      have hmem1 : ∀ row ∈ m.drop 1, ∃ srs ∈ X, ∃ arr chunks,
          string_to_float_series srs d = .ok arr
          ∧ rolling_window arr w s = .ok (some chunks) ∧ row ∈ chunks := by
        rw [hrows]; exact h6
      have hmem2 : ∀ gv ∈ gacc, gv ∈ g := by rw [hgacc]; exact h7
      cases ns with
      | none =>
        simp only [transformGFinish] at hok
        split at hok
        · exact absurd hok (by simp)
        · simp only [Except.ok.injEq, Prod.mk.injEq] at hok
          obtain ⟨hW, hL, hG⟩ := hok
          subst hW; subst hL; subst hG
          exact ⟨hlen1, hlen2, hmem1, hmem2⟩
      | some k =>
        simp only [transformGFinish] at hok
        split at hok
        · exact absurd hok (by simp)
        · split at hok
          · exact absurd hok (by simp)
          · next hguard hk =>
            have hne : (m.drop 1).length ≠ 0 := by
              intro h0
              exact hguard ⟨h0, Nat.pos_of_ne_zero hk⟩
            simp only [Except.ok.injEq, Prod.mk.injEq] at hok
            obtain ⟨hW, hL, hG⟩ := hok
            subst hW; subst hL; subst hG
            refine ⟨by simp, by simp, ?_, ?_⟩
            · intro row hrow
              simp only [List.mem_map, subsampleIdxs] at hrow
              obtain ⟨idx, hidx, rfl⟩ := hrow
              obtain ⟨j, _, rfl⟩ := hidx
              exact hmem1 _ (getD_mem _ _ _ (Nat.mod_lt _ (Nat.pos_of_ne_zero hne)))
            · intro gv hgv
              simp only [List.mem_map, subsampleIdxs] at hgv
              obtain ⟨idx, hidx, rfl⟩ := hgv
              obtain ⟨j, _, rfl⟩ := hidx
              refine hmem2 _ (getD_mem _ _ _ ?_)
              rw [← hlen2, ← hlen1]
              exact Nat.mod_lt _ (Nat.pos_of_ne_zero hne)

/-- C4 (amended): every dataset the Assembler constructs has window matrix,
label vector, and group vector of equal length, and the placeholder seed row
itself is dropped: every output row is a genuine window of some input series.
The claim that no output row *equals* the all-zero row fails, since a genuine
window may be all zeros (counterexample below). -/
theorem transformWithGroups_aligned {G : Type} [Inhabited G] (w s : ℤ)
    (ns : Option ℕ) (rng : ℕ → ℕ) (X : List String) (y : List ℚ) (g : List G)
    (d : Option Char) (W : List (List ℚ)) (L : List ℚ) (Gr : List G)
    (hok : transformWithGroups w s ns rng X y g d = .ok (W, L, Gr)) :
    W.length = L.length ∧ L.length = Gr.length
    ∧ ∀ row ∈ W, ∃ srs ∈ X, ∃ arr chunks,
        string_to_float_series srs d = .ok arr
        ∧ rolling_window arr w s = .ok (some chunks) ∧ row ∈ chunks := by
  obtain ⟨h1, h2, h3, _⟩ :=
    transformWithGroups_parts w s ns rng X y g d W L Gr hok
  exact ⟨h1, h2, h3⟩

/-- C4 witness: the series `"0 0 5"` segmented with `window=2`, `step=1`
gives two windows, two labels, two groups. -/
theorem transformWithGroups_aligned_witness :
    ([[(0 : ℚ), 0], [0, 5]]).length = ([(7 : ℚ), 7]).length
    ∧ ([(7 : ℚ), 7]).length = ([(3 : ℕ), 3]).length
    ∧ ∀ row ∈ [[(0 : ℚ), 0], [0, 5]], ∃ srs ∈ ["0 0 5"], ∃ arr chunks,
        string_to_float_series srs none = .ok arr
        ∧ rolling_window arr 2 1 = .ok (some chunks) ∧ row ∈ chunks :=
  transformWithGroups_aligned 2 1 none (fun _ => 0) ["0 0 5"] [7] [3] none
    [[0, 0], [0, 5]] [7, 7] [3, 3] (by with_unfolding_all rfl)

/-- C4 counterexample: the genuine window `[0, 0]` of the series `"0 0 5"`
appears in the output and equals the all-zero seed row
(`np.zeros(2) = [0, 0]`), refuting "no output row equals the all-zero
placeholder row". -/
theorem transformWithGroups_zero_row_counterexample :
    transformWithGroups 2 1 none (fun _ => 0) ["0 0 5"] [(7 : ℚ)] [(3 : ℕ)]
      none = .ok ([[0, 0], [0, 5]], [7, 7], [3, 3])
    ∧ List.replicate 2 (0 : ℚ) ∈ [[(0 : ℚ), 0], [0, 5]] :=
  ⟨by with_unfolding_all rfl, by decide⟩

/-- Modelled from the spec: the contract of the external sklearn
`GroupShuffleSplit` collaborator used by `load_fcx1`
(load_datasets.py:60-69) — it yields in-bounds train/test index arrays such
that "no group identifier appears in both partitions" (spec §4.3). -/
def GroupDisjointSplit {G : Type} [Inhabited G] (groups : List G)
    (tr te : List ℕ) : Prop :=
  (∀ i ∈ tr, i < groups.length) ∧ (∀ j ∈ te, j < groups.length)
  ∧ ∀ i ∈ tr, ∀ j ∈ te, groups.getD i default ≠ groups.getD j default

/-- `X = np.hstack([wake.series, sleep.series])` (load_datasets.py:63). -/
def fcx1Series (wakeS sleepS : List String) : List String := wakeS ++ sleepS

/-- `y = np.hstack([np.ones(len(wake)), np.zeros(len(sleep))])`
(load_datasets.py:64). -/
def fcx1Labels (wakeS sleepS : List String) : List ℚ :=
  List.replicate wakeS.length 1 ++ List.replicate sleepS.length 0

/-- `groups = np.hstack([wake.groups, sleep.groups])` (load_datasets.py:65). -/
def fcx1Groups {G : Type} (wakeG sleepG : List G) : List G := wakeG ++ sleepG

/-- `X[train_index]` — the series column of the split DataFrame
(load_datasets.py:68,71). -/
def frameSeries (X : List String) (idxs : List ℕ) : List String :=
  idxs.map (fun i => X.getD i "")

/-- `y[train_index]` (load_datasets.py:69). -/
def frameLabels (y : List ℚ) (idxs : List ℕ) : List ℚ :=
  idxs.map (fun i => y.getD i 0)

/-- `groups[train_index]` — the groups column of the split DataFrame
(load_datasets.py:71-72). -/
def frameGroups {G : Type} [Inhabited G] (g : List G) (idxs : List ℕ) :
    List G :=
  idxs.map (fun i => g.getD i default)

/-- C3: `load_fcx1` splits whole series by group before segmentation: under
the GroupShuffleSplit contract the group sets of the train and test frames
are disjoint, and the group vectors of the segmented outputs (windows inherit
the group of their source series) remain disjoint — no window of one
recording appears on both sides. -/
theorem load_fcx1_group_disjoint {G : Type} [DecidableEq G] [Inhabited G]
    (wakeS sleepS : List String) (wakeG sleepG : List G) (tr te : List ℕ)
    (w s : ℤ) (ns : Option ℕ) (rng1 rng2 : ℕ → ℕ) (d : Option Char)
    (hsplit : GroupDisjointSplit (fcx1Groups wakeG sleepG) tr te) :
    Disjoint (frameGroups (fcx1Groups wakeG sleepG) tr).toFinset
      (frameGroups (fcx1Groups wakeG sleepG) te).toFinset
    ∧ ∀ (Wtr : List (List ℚ)) (Ltr : List ℚ) (Gtr : List G)
        (Wte : List (List ℚ)) (Lte : List ℚ) (Gte : List G),
        transformWithGroups w s ns rng1
            (frameSeries (fcx1Series wakeS sleepS) tr)
            (frameLabels (fcx1Labels wakeS sleepS) tr)
            (frameGroups (fcx1Groups wakeG sleepG) tr) d = .ok (Wtr, Ltr, Gtr) →
        transformWithGroups w s ns rng2
            (frameSeries (fcx1Series wakeS sleepS) te)
            (frameLabels (fcx1Labels wakeS sleepS) te)
            (frameGroups (fcx1Groups wakeG sleepG) te) d = .ok (Wte, Lte, Gte) →
        Disjoint Gtr.toFinset Gte.toFinset := by
  obtain ⟨hbtr, hbte, hdis⟩ := hsplit
  have hframe : ∀ x, x ∈ frameGroups (fcx1Groups wakeG sleepG) tr →
      x ∈ frameGroups (fcx1Groups wakeG sleepG) te → False := by
    intro x hxtr hxte
    simp only [frameGroups, List.mem_map] at hxtr hxte
    obtain ⟨i, hi, rfl⟩ := hxtr
    obtain ⟨j, hj, hji⟩ := hxte
    exact hdis i hi j hj hji.symm
  constructor
  · rw [Finset.disjoint_left]
    intro x hx hx2
    exact hframe x (List.mem_toFinset.mp hx) (List.mem_toFinset.mp hx2)
  · intro Wtr Ltr Gtr Wte Lte Gte htr hte
    obtain ⟨_, _, _, hgtr⟩ :=
      transformWithGroups_parts _ _ _ _ _ _ _ _ _ _ _ htr
    obtain ⟨_, _, _, hgte⟩ :=
      transformWithGroups_parts _ _ _ _ _ _ _ _ _ _ _ hte
    rw [Finset.disjoint_left]
    intro x hx hx2
    exact hframe x (hgtr x (List.mem_toFinset.mp hx))
      (hgte x (List.mem_toFinset.mp hx2))

/-- C3 witness: wake series `"1 2"` with group `3`, sleep series `"4"` with
group `5`, split indices `[0]` and `[1]`: both the frame group sets and the
segmented group vectors are disjoint. -/
theorem load_fcx1_group_disjoint_witness :
    Disjoint (frameGroups (fcx1Groups [(3 : ℕ)] [5]) [0]).toFinset
      (frameGroups (fcx1Groups [(3 : ℕ)] [5]) [1]).toFinset
    ∧ Disjoint ([(3 : ℕ), 3]).toFinset ([(5 : ℕ)]).toFinset := by
  have h := load_fcx1_group_disjoint ["1 2"] ["4"] [(3 : ℕ)] [5] [0] [1]
    1 1 none (fun _ => 0) (fun _ => 0) none ⟨by decide, by decide, by decide⟩
  exact ⟨h.1, h.2 [[1], [2]] [1, 1] [3, 3] [[4]] [0] [5]
    (by with_unfolding_all rfl) (by with_unfolding_all rfl)⟩

/-- `np.arange(start, stop, step)` for positive step: `ceil((stop-start)/step)`
equally spaced values from `start`. -/
def np_arange (start stop step : ℚ) : List ℚ :=
  (List.range ((stop - start) / step).ceil.toNat).map
    (fun i => start + step * i)

example : (np_arange (1/20) 1 (1/20)).length = 19 := by with_unfolding_all rfl
example : (np_arange (1/10) 1 (1/10)).length = 9 := by with_unfolding_all rfl

/-- A tsfresh feature dictionary: feature name, mapped to `none`
("no parameters") or a list of parameter assignments.  Float parameter
values are modelled as rationals. -/
abbrev FeatureDict := List (String × Option (List (List (String × ℚ))))

/-- `distribution_features_tsfresh_dict` (utils.py:5-34), including
`ratios_beyond_r_sigma_rvalues = [1, 1.5, 2, 2.5, 3, 5, 6, 7, 10]`. -/
def distribution_features_tsfresh_dict : FeatureDict :=
  [("symmetry_looking",
      some ((np_arange (1/20) 1 (1/20)).map (fun v => [("r", v)]))),
   ("standard_deviation", none),
   ("kurtosis", none),
   ("variance_larger_than_standard_deviation", none),
   ("ratio_beyond_r_sigma",
      some (([1, 3/2, 2, 5/2, 3, 5, 6, 7, 10] : List ℚ).map
        (fun v => [("r", v)]))),
   ("count_below_mean", none),
   ("maximum", none),
   ("variance", none),
   ("abs_energy", none),
   ("mean", none),
   ("skewness", none),
   ("length", none),
   ("large_standard_deviation",
      some ((np_arange (1/20) 1 (1/20)).map (fun v => [("r", v)]))),
   ("count_above_mean", none),
   ("minimum", none),
   ("sum_values", none),
   ("quantile",
      some ((np_arange (1/10) 1 (1/10)).map (fun v => [("q", v)]))),
   ("ratio_value_number_to_time_series_length", none),
   ("median", none)]

/-- `simple_baseline_features` (train_transformers.py:91-101): six
parameterless features. -/
def simple_baseline_features : FeatureDict :=
  [("abs_energy", none), ("mean", none), ("median", none),
   ("minimum", none), ("maximum", none), ("standard_deviation", none)]

/-- The key list of a string-keyed association list. -/
def keysOf {β : Type} (l : List (String × β)) : List String := l.map Prod.fst

/-- `temporal_feature_dict` (train_transformers.py:103-106):
`{key: full[key] for key in set(full) - set(distribution)}` — the entries of
the full catalog whose key is not a distribution feature.  A Python `set`
iterates in unspecified order; the model keeps the catalog order, and the
claims concern key sets only. -/
def temporal_features_of (full_feature_dict : FeatureDict) : FeatureDict :=
  full_feature_dict.filter
    (fun kv => (distribution_features_tsfresh_dict.lookup kv.1).isNone)

/-- `TsfreshVectorizeTransform.get_feature_dict` (train_transformers.py:88-112)
with the external `ComprehensiveFCParameters()` catalog as a parameter:
`feature_dict.get(feature_set, full_feature_dict)` returns the full catalog
for `None` and for unknown names. -/
def get_feature_dict (full_feature_dict : FeatureDict)
    (feature_set : Option String) : FeatureDict :=
  match feature_set with
  | some "simple_baseline" => simple_baseline_features
  | some "distribution_features" => distribution_features_tsfresh_dict
  | some "temporal_features" => temporal_features_of full_feature_dict
  | _ => full_feature_dict

lemma lookup_none_iff {β : Type} (l : List (String × β)) (x : String) :
    l.lookup x = none ↔ x ∉ keysOf l := by
  induction l with
  | nil => simp [List.lookup, keysOf]
  | cons kv rest ih =>
    obtain ⟨k, v⟩ := kv
    by_cases hx : x = k
    · subst hx
      simp [List.lookup, keysOf]
    · have hbeq : (x == k) = false := beq_false_of_ne hx
      simp only [List.lookup, hbeq, keysOf, List.map_cons, List.mem_cons]
      simp [keysOf] at ih
      simp [ih, hx]

lemma mem_keysOf_temporal (full_feature_dict : FeatureDict) (x : String) :
    x ∈ keysOf (temporal_features_of full_feature_dict) ↔
      x ∈ keysOf full_feature_dict ∧
        distribution_features_tsfresh_dict.lookup x = none := by
  simp only [temporal_features_of, keysOf, List.mem_map, List.mem_filter]
  constructor
  · rintro ⟨⟨k, v⟩, ⟨hmem, hp⟩, rfl⟩
    refine ⟨⟨(k, v), hmem, rfl⟩, ?_⟩
    simpa using hp
  · rintro ⟨⟨⟨k, v⟩, hmem, rfl⟩, hp⟩
    exact ⟨(k, v), ⟨hmem, by simp [hp]⟩, rfl⟩

/-- C9: the feature-name sets of `distribution_features` and
`temporal_features` (as returned by `get_feature_dict`) are disjoint, and —
whenever the enumerated distribution features all occur in the external full
catalog, as they do in tsfresh — their union is exactly the full catalog
name set. -/
theorem feature_taxonomy_partition (full_feature_dict : FeatureDict)
    (hsub : ∀ k ∈ keysOf distribution_features_tsfresh_dict,
      k ∈ keysOf full_feature_dict) :
    (keysOf (get_feature_dict full_feature_dict
        (some "distribution_features"))).toFinset ∪
      (keysOf (get_feature_dict full_feature_dict
        (some "temporal_features"))).toFinset =
      (keysOf full_feature_dict).toFinset
    ∧ Disjoint
      (keysOf (get_feature_dict full_feature_dict
        (some "distribution_features"))).toFinset
      (keysOf (get_feature_dict full_feature_dict
        (some "temporal_features"))).toFinset := by
  have hd : get_feature_dict full_feature_dict (some "distribution_features") =
      distribution_features_tsfresh_dict := rfl
  have ht : get_feature_dict full_feature_dict (some "temporal_features") =
      temporal_features_of full_feature_dict := rfl
  rw [hd, ht]
  constructor
  · ext x
    simp only [Finset.mem_union, List.mem_toFinset, mem_keysOf_temporal]
    constructor
    · rintro (hx | ⟨hx, _⟩)
      · exact hsub x hx
      · exact hx
    · intro hx
      cases hlk : distribution_features_tsfresh_dict.lookup x with
      | none => exact Or.inr ⟨hx, rfl⟩
      | some v =>
        left
        by_contra hnot
        rw [(lookup_none_iff distribution_features_tsfresh_dict x).mpr hnot]
          at hlk
        exact Option.noConfusion hlk
  · rw [Finset.disjoint_left]
    intro x hx hx2
    rw [List.mem_toFinset] at hx hx2
    rw [mem_keysOf_temporal] at hx2
    exact (lookup_none_iff distribution_features_tsfresh_dict x).mp hx2.2 hx

/-- C9 witness: a catalog consisting of the distribution features plus two
further features partitions exactly into distribution and temporal name
sets. -/
theorem feature_taxonomy_partition_witness :
    (keysOf (get_feature_dict
        (distribution_features_tsfresh_dict ++
          [("sample_entropy", none), ("autocorrelation", none)])
        (some "distribution_features"))).toFinset ∪
      (keysOf (get_feature_dict
        (distribution_features_tsfresh_dict ++
          [("sample_entropy", none), ("autocorrelation", none)])
        (some "temporal_features"))).toFinset =
      (keysOf (distribution_features_tsfresh_dict ++
        [("sample_entropy", none), ("autocorrelation", none)])).toFinset
    ∧ Disjoint
      (keysOf (get_feature_dict
        (distribution_features_tsfresh_dict ++
          [("sample_entropy", none), ("autocorrelation", none)])
        (some "distribution_features"))).toFinset
      (keysOf (get_feature_dict
        (distribution_features_tsfresh_dict ++
          [("sample_entropy", none), ("autocorrelation", none)])
        (some "temporal_features"))).toFinset :=
  feature_taxonomy_partition
    (distribution_features_tsfresh_dict ++
      [("sample_entropy", none), ("autocorrelation", none)])
    (by decide)

/-- A float value of a pandas feature table: a finite rational, `NaN`, or a
signed infinity. -/
inductive PyVal where
  | num (q : ℚ)
  | nan
  | pinf
  | ninf
deriving DecidableEq

/-- A pandas DataFrame, column-oriented: column name with its value list
(every column of one frame has the row count as its length). -/
abbrev DataFrame := List (String × List PyVal)

/-- `train_test_common_features` (utils.py:58-63): both tables are restricted
with `.loc[:, train_feature_set.intersection(test_feature_set)]`.  Indexing
by a Python `set` selects those columns in unspecified set order; the model
keeps each frame's own column order, and the claims concern the column sets
and the per-column values. -/
def train_test_common_features (train_df test_df : DataFrame) :
    DataFrame × DataFrame :=
  (train_df.filter (fun c => (test_df.lookup c.1).isSome),
   test_df.filter (fun c => (train_df.lookup c.1).isSome))

lemma lookup_isSome_iff {β : Type} (l : List (String × β)) (x : String) :
    (l.lookup x).isSome = true ↔ x ∈ keysOf l := by
  rcases hlk : l.lookup x with _ | v
  · simp only [Option.isSome_none, Bool.false_eq_true, false_iff]
    exact (lookup_none_iff l x).mp hlk
  · simp only [Option.isSome_some, true_iff]
    by_contra hnot
    rw [(lookup_none_iff l x).mpr hnot] at hlk
    exact Option.noConfusion hlk

lemma mem_keysOf_commonFilter {β : Type} (l r : List (String × β)) (x : String) :
    x ∈ keysOf (l.filter (fun c => (r.lookup c.1).isSome)) ↔
      x ∈ keysOf l ∧ x ∈ keysOf r := by
  constructor
  · intro hx
    simp only [keysOf, List.mem_map] at hx
    obtain ⟨⟨k, v⟩, hmem, rfl⟩ := hx
    rw [List.mem_filter] at hmem
    exact ⟨List.mem_map.mpr ⟨(k, v), hmem.1, rfl⟩,
      (lookup_isSome_iff r k).mp hmem.2⟩
  · rintro ⟨hxl, hxr⟩
    simp only [keysOf, List.mem_map] at hxl ⊢
    obtain ⟨⟨k, v⟩, hmem, rfl⟩ := hxl
    exact ⟨(k, v),
      List.mem_filter.mpr ⟨hmem, (lookup_isSome_iff r k).mpr hxr⟩, rfl⟩

lemma lookup_commonFilter {β : Type} (l r : List (String × β)) (x : String)
    (hx : (r.lookup x).isSome = true) :
    (l.filter (fun c => (r.lookup c.1).isSome)).lookup x = l.lookup x := by
  induction l with
  | nil => rfl
  | cons kv rest ih =>
    obtain ⟨k, v⟩ := kv
    by_cases hk : x = k
    · subst hk
      rw [List.filter_cons, if_pos (by exact hx)]
      simp [List.lookup]
    · have hbeq : (x == k) = false := beq_false_of_ne hk
      rw [List.filter_cons]
      by_cases hkr : ((r.lookup k).isSome : Bool) = true
      · rw [if_pos (by exact hkr)]
        simp only [List.lookup, hbeq]
        exact ih
      · rw [if_neg (by exact hkr)]
        rw [ih]
        simp only [List.lookup, hbeq]

/-- C10: `train_test_common_features` restricts both tables to exactly the
columns present in both — the two results have identical column sets, equal
to the intersection of the input column sets — and every retained column
keeps its value list (hence its row count) unchanged in each table. -/
theorem train_test_common_features_spec (train_df test_df : DataFrame) :
    (keysOf (train_test_common_features train_df test_df).1).toFinset =
      (keysOf train_df).toFinset ∩ (keysOf test_df).toFinset
    ∧ (keysOf (train_test_common_features train_df test_df).2).toFinset =
      (keysOf train_df).toFinset ∩ (keysOf test_df).toFinset
    ∧ ∀ c ∈ (keysOf train_df).toFinset ∩ (keysOf test_df).toFinset,
        (train_test_common_features train_df test_df).1.lookup c =
          train_df.lookup c
        ∧ (train_test_common_features train_df test_df).2.lookup c =
          test_df.lookup c := by
  refine ⟨?_, ?_, ?_⟩
  · ext x
    simp only [train_test_common_features, List.mem_toFinset, Finset.mem_inter,
      mem_keysOf_commonFilter]
  · ext x
    simp only [train_test_common_features, List.mem_toFinset, Finset.mem_inter,
      mem_keysOf_commonFilter]
    exact and_comm
  · intro c hc
    rw [Finset.mem_inter, List.mem_toFinset, List.mem_toFinset] at hc
    constructor
    · exact lookup_commonFilter train_df test_df c
        ((lookup_isSome_iff test_df c).mpr hc.2)
    · exact lookup_commonFilter test_df train_df c
        ((lookup_isSome_iff train_df c).mpr hc.1)

/-- C10 witness: tables with columns `a, b` and `b, c` both restrict to the
single common column `b`, with its values unchanged. -/
theorem train_test_common_features_spec_witness :
    (keysOf (train_test_common_features
        [("a", [PyVal.num 1]), ("b", [PyVal.num 2])]
        [("b", [PyVal.num 3]), ("c", [PyVal.num 4])]).1).toFinset =
      (keysOf [("a", [PyVal.num 1]), ("b", [PyVal.num 2])]).toFinset ∩
        (keysOf [("b", [PyVal.num 3]), ("c", [PyVal.num 4])]).toFinset
    ∧ ((train_test_common_features
        [("a", [PyVal.num 1]), ("b", [PyVal.num 2])]
        [("b", [PyVal.num 3]), ("c", [PyVal.num 4])]).1.lookup "b" =
      some [PyVal.num 2]
    ∧ (train_test_common_features
        [("a", [PyVal.num 1]), ("b", [PyVal.num 2])]
        [("b", [PyVal.num 3]), ("c", [PyVal.num 4])]).2.lookup "b" =
      some [PyVal.num 3]) := by
  have h := train_test_common_features_spec
    [("a", [PyVal.num 1]), ("b", [PyVal.num 2])]
    [("b", [PyVal.num 3]), ("c", [PyVal.num 4])]
  have hb := h.2.2 "b" (by decide)
  refine ⟨h.1, ?_, ?_⟩
  · rw [hb.1]; rfl
  · rw [hb.2]; rfl

/-- A Python callable on a DataFrame, modelled with both its return value and
its in-place effect on the argument object: `run X` is what the call
returns, `eff X` is what the object passed in holds after the call. -/
structure PyFunc where
  run : DataFrame → DataFrame
  eff : DataFrame → DataFrame

/-- A callable with no in-place effect: it returns a new table and leaves its
argument object as it was. -/
def pureFunc (f : DataFrame → DataFrame) : PyFunc := ⟨f, id⟩

/-- `DFTransform.transform` (train_transformers.py:20-27):
`X_ = X if not self.copy else X.copy(); return self.func(X_)`.  The result
pairs the returned value with the caller's object after the call: with
`copy = True` the function runs on the copy, so the caller's object is
untouched; with `copy = False` any in-place effect of `func` lands on the
caller's object. -/
def DFTransform_transform (func : PyFunc) (copy : Bool) (X : DataFrame) :
    DataFrame × DataFrame :=
  if copy then (func.run X, X) else (func.run X, func.eff X)

/-- The finite entries of a column. -/
def finiteVals (col : List PyVal) : List ℚ :=
  col.filterMap (fun v =>
    match v with
    | .num q => some q
    | _ => none)

/-- `np.median` of a nonempty sorted sample: the middle element, or the mean
of the two middle elements. -/
def npMedian (xs : List ℚ) : ℚ :=
  let sorted := List.insertionSort (fun a b => a ≤ b) xs
  if sorted.length % 2 = 1 then sorted.getD (sorted.length / 2) 0
  else (sorted.getD (sorted.length / 2 - 1) 0 +
    sorted.getD (sorted.length / 2) 0) / 2

/-- Modelled from the spec: `tsfresh.utilities.dataframe_functions.impute`,
the external missing-value collaborator (spec §1 lists missing-value
imputation as an external primitive; the tsfresh module is not in `src/`).
It replaces, column by column and in place, `NaN` by the column median,
`+inf` by the column maximum and `-inf` by the column minimum of the finite
values (0 when the column has no finite value). -/
def tsfresh_impute (X : DataFrame) : DataFrame :=
  X.map (fun c =>
    (c.1,
     c.2.map (fun v =>
       match v with
       | .num q => .num q
       | .nan => .num (if (finiteVals c.2).isEmpty then 0
           else npMedian (finiteVals c.2))
       | .pinf => .num ((finiteVals c.2).foldl max
           ((finiteVals c.2).headD 0))
       | .ninf => .num ((finiteVals c.2).foldl min
           ((finiteVals c.2).headD 0)))))

/-- `_tsfresh_imputation` (train_transformers.py:128-130):
`tsfresh_utils.impute(X); return X` — the collaborator is called for its
in-place effect and the same (mutated) object is returned, so both the
return value and the effect are the imputed table. -/
def tsfresh_imputation_func : PyFunc := ⟨tsfresh_impute, tsfresh_impute⟩

def colMean (xs : List ℚ) : ℚ := xs.sum / xs.length

/-- Sample variance with `ddof = 1` (the pandas `std` default, squared). -/
def colVar (xs : List ℚ) : ℚ :=
  (xs.map (fun x => (x - colMean xs) ^ 2)).sum / ((xs.length : ℚ) - 1)

/-- The column-keeping test of `_low_variance_removal`
(train_transformers.py:133-134): `(X.std() / (1e-9 + X.mean())).abs() > 0.2`.
On the rational model the square-free equivalent `var > denom^2 / 25` is
used (both sides of the original comparison are nonnegative).  pandas
`std`/`mean` skip `NaN`; infinite entries are treated as missing here as
well (the pipeline imputes them away before this step).  `std` with
`ddof = 1` is `NaN` on fewer than two values (comparison false, column
dropped), and a zero denominator gives `inf` (kept) unless the deviation is
also zero (`NaN`, dropped). -/
def lowVarKeep (col : List PyVal) : Bool :=
  if (finiteVals col).length ≤ 1 then false
  else if (1 : ℚ) / 10 ^ 9 + colMean (finiteVals col) = 0 then
    decide (colVar (finiteVals col) ≠ 0)
  else
    decide (colVar (finiteVals col) >
      ((1 : ℚ) / 10 ^ 9 + colMean (finiteVals col)) ^ 2 / 25)

/-- `_low_variance_removal` (train_transformers.py:133-134): a pure column
filter returning the `.loc` selection as a new table. -/
def low_variance_removal (X : DataFrame) : DataFrame :=
  X.filter (fun c => lowVarKeep c.2)

/-- `_select_features` (train_transformers.py:137-139):
`X.loc[:, feature_list]`, a pure column selection.  `construct_pipeline`
always supplies `feature_list` via `partial`, so the `None` default branch is
unreachable from the pipeline; a missing column, which pandas rejects, is
dropped here (no claim exercises it). -/
def select_features (feature_list : List String) (X : DataFrame) : DataFrame :=
  feature_list.filterMap (fun n => (X.lookup n).map (fun col => (n, col)))

/-- A pipeline entry: either a `DFTransform` wrapping a callable with a copy
flag, or the `standard_scaling` entry — which the source appends as the
`StandardScaler` *class*, not an instance, so it is not a runnable
transform. -/
inductive PipeStep where
  | dfTransform (func : PyFunc) (copy : Bool)
  | scalerClass

/-- `TsfreshFeaturePreprocessorPipeline.construct_pipeline`
(train_transformers.py:155-177): the ordered, flag-dependent step list.
`select_features` and `imputation` use the default `copy = False`;
`low_var_removal` is built with `copy = True`. -/
def construct_pipeline (impute do_scaling remove_low_variance : Bool)
    (keep_features_list : Option (List String)) : List (String × PipeStep) :=
  (match keep_features_list with
   | some fl =>
     [("select_features",
       PipeStep.dfTransform (pureFunc (select_features fl)) false)]
   | none => []) ++
  (if impute then
     [("imputation", PipeStep.dfTransform tsfresh_imputation_func false)]
   else []) ++
  (if do_scaling then [("standard_scaling", PipeStep.scalerClass)] else []) ++
  (if remove_low_variance then
     [("low_var_removal",
       PipeStep.dfTransform (pureFunc low_variance_removal) true)]
   else [])

/-- What the caller's table holds after running one pipeline step on it;
`none` for the scaler entry, which is an uninstantiated class and cannot be
applied. -/
def stepCallerAfter : PipeStep → DataFrame → Option DataFrame
  | .dfTransform f c, X => some (DFTransform_transform f c X).2
  | .scalerClass, _ => none

lemma construct_pipeline_mem (imp sca lowv : Bool)
    (keep : Option (List String)) (p : String × PipeStep)
    (hp : p ∈ construct_pipeline imp sca lowv keep) :
    (∃ fl, keep = some fl ∧
      p = ("select_features",
        PipeStep.dfTransform (pureFunc (select_features fl)) false))
    ∨ p = ("imputation", PipeStep.dfTransform tsfresh_imputation_func false)
    ∨ p = ("standard_scaling", PipeStep.scalerClass)
    ∨ p = ("low_var_removal",
        PipeStep.dfTransform (pureFunc low_variance_removal) true) := by
  unfold construct_pipeline at hp
  rcases List.mem_append.mp hp with hABC | hD
  · rcases List.mem_append.mp hABC with hAB | hC
    · rcases List.mem_append.mp hAB with hA | hB
      · rcases keep with _ | fl
        · simp at hA
        · simp at hA
          exact Or.inl ⟨fl, rfl, hA⟩
      · cases imp with
        | false => simp at hB
        | true =>
          simp at hB
          exact Or.inr (Or.inl hB)
    · cases sca with
      | false => simp at hC
      | true =>
        simp at hC
        exact Or.inr (Or.inr (Or.inl hC))
  · cases lowv with
    | false => simp at hD
    | true =>
      simp at hD
      exact Or.inr (Or.inr (Or.inr hD))

/-- C8 (amended): of the steps `construct_pipeline` builds, feature selection
and low-variance removal leave the caller's table unmodified — low-variance
removal via its `copy = True` copy-on-write — while imputation is wired with
`copy = False` over an in-place collaborator, so after it the caller's table
holds the imputed values, which differ from the input whenever non-finite
entries are present (counterexample).  The scaling entry is the
uninstantiated `StandardScaler` class, not a runnable transform. -/
theorem construct_pipeline_effects (imp sca lowv : Bool)
    (keep : Option (List String)) (X : DataFrame) :
    (∀ nm st, (nm, st) ∈ construct_pipeline imp sca lowv keep →
      nm ≠ "imputation" → nm ≠ "standard_scaling" →
      stepCallerAfter st X = some X)
    ∧ (∀ st, ("imputation", st) ∈ construct_pipeline imp sca lowv keep →
      stepCallerAfter st X = some (tsfresh_impute X))
    ∧ (∀ st, ("standard_scaling", st) ∈ construct_pipeline imp sca lowv keep →
      stepCallerAfter st X = none) := by
  refine ⟨?_, ?_, ?_⟩
  · intro nm st hmem hni hns
    rcases construct_pipeline_mem imp sca lowv keep (nm, st) hmem with
      ⟨fl, _, hp⟩ | hp | hp | hp <;> rw [Prod.mk.injEq] at hp
    · obtain ⟨-, rfl⟩ := hp
      simp [stepCallerAfter, DFTransform_transform, pureFunc]
    · exact absurd hp.1 hni
    · exact absurd hp.1 hns
    · obtain ⟨-, rfl⟩ := hp
      simp [stepCallerAfter, DFTransform_transform, pureFunc]
  · intro st hmem
    rcases construct_pipeline_mem imp sca lowv keep ("imputation", st) hmem
      with ⟨fl, _, hp⟩ | hp | hp | hp <;> rw [Prod.mk.injEq] at hp
    · exact absurd hp.1 (by decide)
    · obtain ⟨-, rfl⟩ := hp
      simp [stepCallerAfter, DFTransform_transform, tsfresh_imputation_func]
    · exact absurd hp.1 (by decide)
    · exact absurd hp.1 (by decide)
  · intro st hmem
    rcases construct_pipeline_mem imp sca lowv keep ("standard_scaling", st)
      hmem with ⟨fl, _, hp⟩ | hp | hp | hp <;> rw [Prod.mk.injEq] at hp
    · exact absurd hp.1 (by decide)
    · exact absurd hp.1 (by decide)
    · obtain ⟨-, rfl⟩ := hp
      rfl
    · exact absurd hp.1 (by decide)

/-- C8 witness: with all flags on, the `select_features` and
`low_var_removal` steps of the constructed pipeline leave the caller's
one-column table unchanged. -/
theorem construct_pipeline_effects_witness :
    stepCallerAfter
      (PipeStep.dfTransform (pureFunc (select_features ["a"])) false)
      [("a", [PyVal.num 1])] = some [("a", [PyVal.num 1])]
    ∧ stepCallerAfter
      (PipeStep.dfTransform (pureFunc low_variance_removal) true)
      [("a", [PyVal.num 1])] = some [("a", [PyVal.num 1])] :=
  ⟨(construct_pipeline_effects true true true (some ["a"])
      [("a", [PyVal.num 1])]).1 "select_features" _
      (by simp [construct_pipeline]) (by decide) (by decide),
   (construct_pipeline_effects true true true (some ["a"])
      [("a", [PyVal.num 1])]).1 "low_var_removal" _
      (by simp [construct_pipeline]) (by decide) (by decide)⟩

/-- C8 counterexample: the imputation step, as the pipeline constructs it
(`copy = False` over the in-place collaborator), leaves the caller's table
holding the imputed values: a `NaN` in column `a` is replaced by the column
median `3/2`, so the caller's table is modified — the claim that every step
leaves its input unchanged fails. -/
theorem imputation_mutates_counterexample :
    construct_pipeline true false false none =
      [("imputation", PipeStep.dfTransform tsfresh_imputation_func false)]
    ∧ stepCallerAfter (PipeStep.dfTransform tsfresh_imputation_func false)
        [("a", [PyVal.nan, PyVal.num 1, PyVal.num 2])] =
      some [("a", [PyVal.num (3 / 2), PyVal.num 1, PyVal.num 2])]
    ∧ (some [("a", [PyVal.num (3 / 2), PyVal.num 1, PyVal.num 2])] :
        Option DataFrame) ≠
      some [("a", [PyVal.nan, PyVal.num 1, PyVal.num 2])] :=
  ⟨rfl, by with_unfolding_all rfl, by with_unfolding_all decide⟩
